import Mathlib

/-!
# Workbench state engine: split-pane layout tree and schema cache

Shallow embedding of the workbench state engine of workgrid-studio:
the split-pane editor tree with its tab lifecycle operations
(`src/lib/db.ts`, layout store section) and the hierarchical schema
cache (`src/state/schemaStore.ts`).

Conventions of the embedding:
* JS string ids stay `String`; fresh ids produced by `crypto.randomUUID()`
  become explicit parameters of the operations that create them.
* `ratio` (a JS number used only through order comparisons and constant
  literals) is embedded as `ℚ`.
* JS objects used as string-keyed maps become functions `String → Option α`;
  deleting a set of keys in a `for … of Object.keys` loop becomes the
  pointwise function that erases exactly those keys.
* JS `String.prototype.startsWith` is embedded as character-list prefix.
-/

namespace WorkgridStudio

/-- `SplitDirection` from `db.ts`: `"horizontal" | "vertical"`. -/
inductive SplitDirection
  | horizontal
  | vertical
deriving DecidableEq

/-- `EditorTabType` from `db.ts`:
`"sql" | "results" | "schema" | "models" | "tasks" | "database-view" | "table-designer"`. -/
inductive EditorTabType
  | sql
  | results
  | schema
  | models
  | tasks
  | databaseView
  | tableDesigner
deriving DecidableEq

/-- A JS object of strings (`Record<string, string>`), as an association list
whose lookup takes the first matching key. -/
abbrev StrMap : Type := List (String × String)

/-- Property read `m[k]` on a JS string record: `none` models `undefined`. -/
def strMapGet (m : StrMap) (k : String) : Option String :=
  (List.find? (fun p => p.1 == k) m).map Prod.snd

/-- JS template-literal stringification of a possibly-`undefined` string:
`undefined` interpolates as the text `"undefined"`. -/
def jsStr : Option String → String
  | some s => s
  | none => "undefined"

/-- `EditorTab` from `db.ts`. -/
structure EditorTab where
  id : String
  title : String
  type : EditorTabType
  dirty : Option Bool
  meta : Option StrMap
deriving DecidableEq

/-- `SplitLeaf` from `db.ts` (sans the constant `type: "leaf"` tag, which the
`SplitTree` constructor carries). -/
structure SplitLeaf where
  id : String
  tabs : List EditorTab
  activeTabId : Option String
deriving DecidableEq

/-- `SplitTree = SplitLeaf | SplitNode` from `db.ts`; the `node` constructor
inlines `SplitNode`'s fields `id`, `direction`, `ratio`, `a`, `b`. -/
inductive SplitTree
  | leaf (l : SplitLeaf)
  | node (id : String) (direction : SplitDirection) (ratio : ℚ) (a b : SplitTree)
deriving DecidableEq

/-- `findFirstLeaf` from `db.ts`: descend through `a` until a leaf. -/
def findFirstLeaf : SplitTree → SplitLeaf
  | .leaf l => l
  | .node _ _ _ a _ => findFirstLeaf a

/-- `updateLeaf` from `db.ts`: rewrite every leaf whose id matches. -/
def updateLeaf (t : SplitTree) (leafId : String) (updater : SplitLeaf → SplitLeaf) :
    SplitTree :=
  match t with
  | .leaf l => if l.id = leafId then .leaf (updater l) else .leaf l
  | .node i d r a b => .node i d r (updateLeaf a leafId updater) (updateLeaf b leafId updater)

/-- `findLeafById` from `db.ts`: depth-first, `a` before `b`; JS `||` on a
possibly-`null` result is `Option.orElse`. -/
def findLeafById : SplitTree → String → Option SplitLeaf
  | .leaf l, i => if l.id = i then some l else none
  | .node _ _ _ a b, i => (findLeafById a i).orElse (fun _ => findLeafById b i)

/-- `replaceNode` from `db.ts`: replace every *leaf* whose id matches by a
whole subtree. -/
def replaceNode (t : SplitTree) (targetId : String) (replacer : SplitLeaf → SplitTree) :
    SplitTree :=
  match t with
  | .leaf l => if l.id = targetId then replacer l else .leaf l
  | .node i d r a b =>
      .node i d r (replaceNode a targetId replacer) (replaceNode b targetId replacer)

/-- The `Partial<SplitNode>` argument of `updateNode`; spreading
`{...tree, ...updates}` keeps a field when the update omits it. -/
structure NodeUpdates where
  id : Option String
  direction : Option SplitDirection
  ratio : Option ℚ
  a : Option SplitTree
  b : Option SplitTree

/-- The `{ ratio: newRatio }` literal passed by `resizeNode`. -/
def NodeUpdates.ratioOnly (r : ℚ) : NodeUpdates :=
  ⟨none, none, some r, none, none⟩

/-- `updateNode` from `db.ts`: a matching *node* is merged with the updates
(and not recursed into); otherwise recurse into both children. -/
def updateNode (t : SplitTree) (targetId : String) (u : NodeUpdates) : SplitTree :=
  match t with
  | .leaf l => .leaf l
  | .node i d r a b =>
      if i = targetId then
        .node (u.id.getD i) (u.direction.getD d) (u.ratio.getD r) (u.a.getD a) (u.b.getD b)
      else
        .node i d r (updateNode a targetId u) (updateNode b targetId u)

/-- The `Partial<Pick<EditorTab, "title" | "meta">>` argument of `updateTab`. -/
structure TabUpdates where
  title : Option String
  meta : Option StrMap

/-- JS object spread `{...old, ...patch}` on string records, up to key order:
keys of `patch` win, other keys of `old` survive. -/
def objMerge (old patch : StrMap) : StrMap :=
  (List.filter (fun p => (strMapGet patch p.1).isNone) old) ++ patch

/-- The per-tab merge performed by `updateTabInTree`:
`{ ...t, ...updates, meta: updates.meta ? { ...t.meta, ...updates.meta } : t.meta }`
(spreading an `undefined` `t.meta` yields the empty object). -/
def applyTabUpdates (tb : EditorTab) (u : TabUpdates) : EditorTab :=
  { tb with
    title := u.title.getD tb.title
    meta :=
      match u.meta with
      | some patch => some (objMerge (tb.meta.getD []) patch)
      | none => tb.meta }

/-- `updateTabInTree` from `db.ts`: a leaf not containing the tab id is
returned as-is; otherwise the matching tab is merged with the updates. -/
def updateTabInTree (t : SplitTree) (tabId : String) (u : TabUpdates) : SplitTree :=
  match t with
  | .leaf l =>
      if l.tabs.any (fun tb => tb.id == tabId) then
        .leaf { l with
          tabs := l.tabs.map (fun tb => if tb.id = tabId then applyTabUpdates tb u else tb) }
      else .leaf l
  | .node i d r a b => .node i d r (updateTabInTree a tabId u) (updateTabInTree b tabId u)

/-- `Omit<EditorTab, "id">`: the payload of `openTab`. -/
structure TabData where
  title : String
  type : EditorTabType
  dirty : Option Bool
  meta : Option StrMap
deriving DecidableEq

/-- The dedup key `` `${meta.profileId}::${meta.database}` `` built by
`openTab` for `"database-view"` tabs; a missing property interpolates as
`"undefined"` exactly as in JS. -/
def dedupKeyOf (m : StrMap) : String :=
  jsStr (strMapGet m "profileId") ++ "::" ++ jsStr (strMapGet m "database")

/-- The dedup scan predicate of `openTab`:
`t.type === "database-view" && t.meta && key(t.meta) === key`. -/
def dedupMatches (key : String) (tb : EditorTab) : Bool :=
  tb.type == EditorTabType.databaseView &&
    (match tb.meta with
     | some tm => dedupKeyOf tm == key
     | none => false)

/-- The `targetLeaf` computation of `openTab`:
`leafId ? findLeafById(state.editorTree, leafId) : findFirstLeaf(state.editorTree)`.
A JS `leafId` that is `undefined` or the (falsy) empty string selects
`findFirstLeaf`; a present but unknown `leafId` makes `findLeafById`
return `null`. -/
def resolveTarget (t : SplitTree) (leafId : Option String) : Option SplitLeaf :=
  match leafId with
  | some lid => if lid = "" then some (findFirstLeaf t) else findLeafById t lid
  | none => some (findFirstLeaf t)

/-- The `existing` computation of `openTab`: for `"database-view"` payloads
with a `meta`, scan the target leaf's tabs for the first dedup match. -/
def dedupScan (tabData : TabData) (target : SplitLeaf) : Option EditorTab :=
  match tabData.type, tabData.meta with
  | EditorTabType.databaseView, some m =>
      List.find? (dedupMatches (dedupKeyOf m)) target.tabs
  | _, _ => none

/-- `openTab(tabData, leafId?)` from `db.ts`, acting on the store's
`editorTree`. `uuid` stands for the `crypto.randomUUID()` call that names a
newly created tab. When the target leaf resolves to `null` the whole call
returns the state unchanged. -/
def openTab (uuid : String) (tabData : TabData) (leafId : Option String)
    (t : SplitTree) : SplitTree :=
  match resolveTarget t leafId with
  | none => t
  | some target =>
    match dedupScan tabData target with
    | some e =>
        updateLeaf t target.id (fun leaf => { leaf with activeTabId := some e.id })
    | none =>
        let newTab : EditorTab :=
          { id := "tab-" ++ uuid, title := tabData.title, type := tabData.type,
            dirty := tabData.dirty, meta := tabData.meta }
        updateLeaf t target.id (fun leaf =>
          { leaf with tabs := leaf.tabs ++ [newTab], activeTabId := some newTab.id })

/-- `closeTab(tabId, leafId)` from `db.ts`. -/
def closeTab (tabId leafId : String) (t : SplitTree) : SplitTree :=
  updateLeaf t leafId (fun leaf =>
    let newTabs := leaf.tabs.filter (fun tb => tb.id ≠ tabId)
    let newActiveId : Option String :=
      if leaf.activeTabId = some tabId then
        match newTabs.getLast? with
        | some last => some last.id
        | none => none
      else leaf.activeTabId
    { id := leaf.id, tabs := newTabs, activeTabId := newActiveId })

/-- `closeOtherTabs(tabId, leafId)` from `db.ts`. -/
def closeOtherTabs (tabId leafId : String) (t : SplitTree) : SplitTree :=
  updateLeaf t leafId (fun leaf =>
    match List.find? (fun tb => tb.id == tabId) leaf.tabs with
    | none => leaf
    | some tabToKeep => { leaf with tabs := [tabToKeep], activeTabId := some tabToKeep.id })

/-- `closeTabsToRight(tabId, leafId)` from `db.ts`. The `newTabs` list is
never empty when the index is found, so the `none` fallback of `getLast?`
(JS would have crashed on `newTabs[newTabs.length - 1]`) is unreachable. -/
def closeTabsToRight (tabId leafId : String) (t : SplitTree) : SplitTree :=
  updateLeaf t leafId (fun leaf =>
    match List.findIdx? (fun tb => tb.id == tabId) leaf.tabs with
    | none => leaf
    | some tabIndex =>
        let newTabs := leaf.tabs.take (tabIndex + 1)
        let newActiveId : Option String :=
          if newTabs.any (fun tb => some tb.id = leaf.activeTabId) then leaf.activeTabId
          else
            match newTabs.getLast? with
            | some last => some last.id
            | none => none
        { leaf with tabs := newTabs, activeTabId := newActiveId })

/-- `closeAllTabs(leafId)` from `db.ts`. -/
def closeAllTabs (leafId : String) (t : SplitTree) : SplitTree :=
  updateLeaf t leafId (fun leaf => { leaf with tabs := [], activeTabId := none })

/-- `setActiveTab(tabId, leafId)` from `db.ts`: unconditional write. -/
def setActiveTab (tabId leafId : String) (t : SplitTree) : SplitTree :=
  updateLeaf t leafId (fun leaf => { leaf with activeTabId := some tabId })

/-- `updateTab(tabId, updates)` from `db.ts`. -/
def updateTab (tabId : String) (u : TabUpdates) (t : SplitTree) : SplitTree :=
  updateTabInTree t tabId u

/-- `splitLeaf(leafId, direction)` from `db.ts`; `nodeUuid` and `leafUuid`
stand for the two `crypto.randomUUID()` calls. -/
def splitLeaf (nodeUuid leafUuid : String) (leafId : String)
    (direction : SplitDirection) (t : SplitTree) : SplitTree :=
  replaceNode t leafId (fun oldLeaf =>
    .node ("node-" ++ nodeUuid) direction 0.5
      (.leaf oldLeaf)
      (.leaf { id := "leaf-" ++ leafUuid, tabs := [], activeTabId := none }))

/-- `resizeNode(nodeId, newRatio)` from `db.ts`: writes `newRatio` verbatim
through `updateNode`. -/
def resizeNode (nodeId : String) (newRatio : ℚ) (t : SplitTree) : SplitTree :=
  updateNode t nodeId (NodeUpdates.ratioOnly newRatio)

/-- The store's initial `editorTree`. -/
def initialEditorTree : SplitTree :=
  .leaf { id := "root-editor", tabs := [], activeTabId := none }

/-- JS `Math.max` on two finite numbers. -/
def jsMax (a b : ℚ) : ℚ := if a < b then b else a

/-- JS `Math.min` on two finite numbers. -/
def jsMin (a b : ℚ) : ℚ := if b < a then b else a

/-- The clamp applied in `EditorNode.tsx` before calling `resizeNode`:
`Math.min(Math.max(tree.ratio + ratioChange, 0.1), 0.9)`. -/
def dragClamp (r : ℚ) : ℚ :=
  jsMin (jsMax r 0.1) 0.9

/-- `ColumnInfo` from `schemaStore.ts`. -/
structure ColumnInfo where
  name : String
  col_type : String
  nullable : Bool
  key : String
  default_val : Option String
  extra : String
deriving DecidableEq

/-- JS `s.startsWith(pre)` on strings, as character-list prefix. -/
def jsStartsWith (s pre : String) : Bool :=
  List.isPrefixOf pre.data s.data

/-- The state of `useSchemaStore` (`schemaStore.ts`): each
`Record<string, V>` becomes a function `String → Option V`. -/
structure SchemaState where
  connectedProfiles : String → Option (String × String)
  databases : String → Option (List String)
  tables : String → Option (List String)
  columns : String → Option (List ColumnInfo)
  loadingDatabases : String → Option Bool
  loadingTables : String → Option Bool
  loadingColumns : String → Option Bool
  errors : String → Option String

/-- `removeConnection(profileId)` from `schemaStore.ts`:
* `connectedProfiles` and `databases` drop the key `profileId` itself;
* `tables` and `columns` drop every key with `key.startsWith(profileId + "::")`;
* `errors` drops every key with `key.startsWith(profileId)` (no `"::"`);
* the three loading maps are not written at all (the returned partial state
  omits them, so zustand's merge keeps them). -/
def removeConnection (profileId : String) (s : SchemaState) : SchemaState :=
  { s with
    connectedProfiles := fun k => if k = profileId then none else s.connectedProfiles k
    databases := fun k => if k = profileId then none else s.databases k
    tables := fun k => if jsStartsWith k (profileId ++ "::") then none else s.tables k
    columns := fun k => if jsStartsWith k (profileId ++ "::") then none else s.columns k
    errors := fun k => if jsStartsWith k profileId then none else s.errors k }

/-! ## Observations on trees used by the properties -/

/-- Ids of all leaves, in depth-first order. -/
def leafIds : SplitTree → List String
  | .leaf l => [l.id]
  | .node _ _ _ a b => leafIds a ++ leafIds b

/-- Does some node of the tree carry this id? -/
def hasNodeId : SplitTree → String → Bool
  | .leaf _, _ => false
  | .node i _ _ a b, targetId => i == targetId || hasNodeId a targetId || hasNodeId b targetId

/-- Does some tab anywhere in the tree carry this id? -/
def hasTabId : SplitTree → String → Bool
  | .leaf l, i => l.tabs.any (fun tb => tb.id == i)
  | .node _ _ _ a b, i => hasTabId a i || hasTabId b i

/-- Is some leaf's `activeTabId` this id? -/
def isActiveSomewhere : SplitTree → String → Bool
  | .leaf l, i => l.activeTabId == some i
  | .node _ _ _ a b, i => isActiveSomewhere a i || isActiveSomewhere b i

/-- The per-leaf active-tab invariant: `activeTabId` is absent or the id of a
tab in this leaf's `tabs`. -/
def leafActiveOk (l : SplitLeaf) : Bool :=
  match l.activeTabId with
  | none => true
  | some i => l.tabs.any (fun tb => tb.id == i)

/-- The active-tab invariant over the whole tree. -/
def activeOk : SplitTree → Bool
  | .leaf l => leafActiveOk l
  | .node _ _ _ a b => activeOk a && activeOk b

/-- Every node's `ratio` lies in `[0.1, 0.9]`. -/
def ratiosInRange : SplitTree → Bool
  | .leaf _ => true
  | .node _ _ r a b => decide ((0.1 : ℚ) ≤ r ∧ r ≤ 0.9) && ratiosInRange a && ratiosInRange b

/-! ## Operation sequences on the layout store -/

/-- One call to a tab / split / resize operation of the layout store, with
the `crypto.randomUUID()` results of id-creating calls made explicit. -/
inductive LayoutOp
  | openTab (uuid : String) (tabData : TabData) (leafId : Option String)
  | closeTab (tabId leafId : String)
  | closeOtherTabs (tabId leafId : String)
  | closeTabsToRight (tabId leafId : String)
  | closeAllTabs (leafId : String)
  | setActiveTab (tabId leafId : String)
  | updateTab (tabId : String) (u : TabUpdates)
  | splitLeaf (nodeUuid leafUuid leafId : String) (direction : SplitDirection)
  | resizeNode (nodeId : String) (newRatio : ℚ)

/-- Execute one operation on the store's `editorTree`. -/
def applyOp : LayoutOp → SplitTree → SplitTree
  | .openTab uuid d leafId, t => openTab uuid d leafId t
  | .closeTab tabId leafId, t => closeTab tabId leafId t
  | .closeOtherTabs tabId leafId, t => closeOtherTabs tabId leafId t
  | .closeTabsToRight tabId leafId, t => closeTabsToRight tabId leafId t
  | .closeAllTabs leafId, t => closeAllTabs leafId t
  | .setActiveTab tabId leafId, t => setActiveTab tabId leafId t
  | .updateTab tabId u, t => updateTab tabId u t
  | .splitLeaf nu lu leafId dir, t => splitLeaf nu lu leafId dir t
  | .resizeNode nodeId r, t => resizeNode nodeId r t

/-- Execute a sequence of operations, first element first. -/
def applyOps (ops : List LayoutOp) (t : SplitTree) : SplitTree :=
  ops.foldl (fun acc op => applyOp op acc) t

/-- Restriction of C1's quantification: the op is a `splitLeaf`, or a
`resizeNode` whose argument already lies in `[0.1, 0.9]` (which is what the
only in-repo caller, the drag handler of `EditorNode.tsx`, passes). -/
def splitOrClampedResize : LayoutOp → Bool
  | .splitLeaf _ _ _ _ => true
  | .resizeNode _ r => decide ((0.1 : ℚ) ≤ r ∧ r ≤ 0.9)
  | _ => false

/-- Per-state guard under which one operation keeps the active-tab invariant:
`setActiveTab` must name a tab of the addressed leaf, and a `splitLeaf`'s
fresh leaf id must really be fresh (which `crypto.randomUUID()` guarantees
with overwhelming probability); every other operation is unrestricted. -/
def opGuard (op : LayoutOp) (t : SplitTree) : Bool :=
  match op with
  | .setActiveTab tabId leafId =>
      match findLeafById t leafId with
      | some l => l.tabs.any (fun tb => tb.id == tabId)
      | none => true
  | .splitLeaf _ lu _ _ => !((leafIds t).contains ("leaf-" ++ lu))
  | _ => true

/-- A sequence of operations each of which satisfies `opGuard` in the state
it is executed in. -/
def guardedFrom : SplitTree → List LayoutOp → Bool
  | _, [] => true
  | t, op :: ops => opGuard op t && guardedFrom (applyOp op t) ops

attribute [local semireducible] Rat.ofScientific

/-! ## Lemmas on the tree primitives -/

theorem updateLeaf_eq_self {t : SplitTree} {i : String} {f : SplitLeaf → SplitLeaf}
    (h : ∀ l : SplitLeaf, l.id = i → f l = l) : updateLeaf t i f = t := by
  induction t with
  | leaf l =>
      by_cases hl : l.id = i
      · simp [updateLeaf, hl, h l hl]
      · simp [updateLeaf, hl]
  | node j d r a b iha ihb => simp [updateLeaf, iha, ihb]

theorem mem_leafIds_leaf {l : SplitLeaf} {i : String} :
    i ∈ leafIds (SplitTree.leaf l) ↔ l.id = i := by
  simp [leafIds, eq_comm]

theorem updateLeaf_not_mem {t : SplitTree} {i : String} {f : SplitLeaf → SplitLeaf}
    (h : i ∉ leafIds t) : updateLeaf t i f = t := by
  induction t with
  | leaf l =>
      have hl : ¬ l.id = i := fun he => h (mem_leafIds_leaf.mpr he)
      simp [updateLeaf, hl]
  | node j d r a b iha ihb =>
      simp only [leafIds, List.mem_append] at h
      push_neg at h
      simp [updateLeaf, iha h.1, ihb h.2]

theorem replaceNode_not_mem {t : SplitTree} {i : String} {f : SplitLeaf → SplitTree}
    (h : i ∉ leafIds t) : replaceNode t i f = t := by
  induction t with
  | leaf l =>
      have hl : ¬ l.id = i := fun he => h (mem_leafIds_leaf.mpr he)
      simp [replaceNode, hl]
  | node j d r a b iha ihb =>
      simp only [leafIds, List.mem_append] at h
      push_neg at h
      simp [replaceNode, iha h.1, ihb h.2]

theorem findLeafById_id {t : SplitTree} {i : String} {l : SplitLeaf}
    (h : findLeafById t i = some l) : l.id = i := by
  induction t with
  | leaf l' =>
      by_cases hl : l'.id = i
      · simp [findLeafById, hl] at h
        exact h ▸ hl
      · simp [findLeafById, hl] at h
  | node j d r a b iha ihb =>
      simp only [findLeafById] at h
      cases hfa : findLeafById a i with
      | some l' =>
          rw [hfa] at h
          have hll : l' = l := by simpa [Option.orElse] using h
          exact iha (hll ▸ hfa)
      | none => rw [hfa] at h; exact ihb (by simpa [Option.orElse] using h)

theorem findLeafById_eq_none {t : SplitTree} {i : String}
    (h : i ∉ leafIds t) : findLeafById t i = none := by
  induction t with
  | leaf l =>
      have hl : ¬ l.id = i := fun he => h (mem_leafIds_leaf.mpr he)
      simp [findLeafById, hl]
  | node j d r a b iha ihb =>
      simp only [leafIds, List.mem_append] at h
      push_neg at h
      simp [findLeafById, iha h.1, ihb h.2, Option.orElse]

theorem findLeafById_mem {t : SplitTree} {i : String} {l : SplitLeaf}
    (h : findLeafById t i = some l) : i ∈ leafIds t := by
  by_contra hm
  rw [findLeafById_eq_none hm] at h
  exact Option.noConfusion h

theorem findLeafById_updateLeaf {t : SplitTree} {i : String} {f : SplitLeaf → SplitLeaf}
    (hid : ∀ l : SplitLeaf, (f l).id = l.id) :
    findLeafById (updateLeaf t i f) i = (findLeafById t i).map f := by
  induction t with
  | leaf l =>
      by_cases hl : l.id = i
      · simp [updateLeaf, findLeafById, hl, hid l]
      · simp [updateLeaf, findLeafById, hl]
  | node j d r a b iha ihb =>
      simp only [updateLeaf, findLeafById]
      cases hfa : findLeafById a i with
      | some l' => simp [Option.orElse, iha, hfa]
      | none => simp [Option.orElse, iha, ihb, hfa]

theorem findLeafById_updateLeaf_ne {t : SplitTree} {i j : String} {f : SplitLeaf → SplitLeaf}
    (hne : j ≠ i) (hid : ∀ l : SplitLeaf, (f l).id = l.id) :
    findLeafById (updateLeaf t i f) j = findLeafById t j := by
  induction t with
  | leaf l =>
      by_cases hl : l.id = i
      · have h1 : (f l).id ≠ j := by rw [hid l, hl]; exact fun he => hne he.symm
        have h2 : l.id ≠ j := by rw [hl]; exact fun he => hne he.symm
        have h3 : i ≠ j := fun he => hne he.symm
        simp [updateLeaf, findLeafById, hl, h1, h2, h3]
      · simp [updateLeaf, findLeafById, hl]
  | node j' d r a b iha ihb =>
      simp [updateLeaf, findLeafById, iha, ihb]

theorem leafIds_updateLeaf {t : SplitTree} {i : String} {f : SplitLeaf → SplitLeaf}
    (hid : ∀ l : SplitLeaf, (f l).id = l.id) :
    leafIds (updateLeaf t i f) = leafIds t := by
  induction t with
  | leaf l =>
      by_cases hl : l.id = i
      · simp [updateLeaf, leafIds, hl, hid l]
      · simp [updateLeaf, leafIds, hl]
  | node j d r a b iha ihb => simp [updateLeaf, leafIds, iha, ihb]

theorem ratiosInRange_updateLeaf {t : SplitTree} {i : String} {f : SplitLeaf → SplitLeaf} :
    ratiosInRange (updateLeaf t i f) = ratiosInRange t := by
  induction t with
  | leaf l =>
      by_cases hl : l.id = i <;> simp [updateLeaf, ratiosInRange, hl]
  | node j d r a b iha ihb => simp [updateLeaf, ratiosInRange, iha, ihb]

theorem findFirstLeaf_findLeafById (t : SplitTree) :
    findLeafById t (findFirstLeaf t).id = some (findFirstLeaf t) := by
  induction t with
  | leaf l => simp [findFirstLeaf, findLeafById]
  | node j d r a b iha ihb => simp [findFirstLeaf, findLeafById, iha, Option.orElse]

theorem findLeafById_none_not_mem {t : SplitTree} {i : String}
    (h : findLeafById t i = none) : i ∉ leafIds t := by
  induction t with
  | leaf l =>
      by_cases hl : l.id = i
      · simp [findLeafById, hl] at h
      · simpa [leafIds] using fun he => hl he.symm
  | node j d r a b iha ihb =>
      simp only [findLeafById] at h
      cases hfa : findLeafById a i with
      | some l' => rw [hfa] at h; simp [Option.orElse] at h
      | none =>
          rw [hfa] at h
          simp only [Option.orElse] at h
          simp only [leafIds, List.mem_append]
          rintro (hm | hm)
          · exact iha hfa hm
          · exact ihb h hm

/-! ## Lemmas on the active-tab invariant -/

theorem activeOk_updateLeaf_of_pres {t : SplitTree} {i : String} {f : SplitLeaf → SplitLeaf}
    (hf : ∀ l : SplitLeaf, leafActiveOk l = true → leafActiveOk (f l) = true)
    (h : activeOk t = true) : activeOk (updateLeaf t i f) = true := by
  induction t with
  | leaf l =>
      by_cases hl : l.id = i
      · simpa [updateLeaf, activeOk, hl] using hf l (by simpa [activeOk] using h)
      · simpa [updateLeaf, activeOk, hl] using h
  | node j d r a b iha ihb =>
      simp only [activeOk, Bool.and_eq_true] at h
      simp [updateLeaf, activeOk, iha h.1, ihb h.2]

theorem activeOk_updateLeaf_target {t : SplitTree} {i : String} {f : SplitLeaf → SplitLeaf}
    {l : SplitLeaf}
    (hnd : (leafIds t).Nodup)
    (hfind : findLeafById t i = some l)
    (hok : activeOk t = true)
    (hfl : leafActiveOk (f l) = true) :
    activeOk (updateLeaf t i f) = true := by
  induction t with
  | leaf l' =>
      by_cases hl : l'.id = i
      · simp only [findLeafById, hl, if_pos] at hfind
        cases hfind
        simp [updateLeaf, activeOk, hl, hfl]
      · simp [findLeafById, hl] at hfind
  | node j d r a b iha ihb =>
      simp only [leafIds, List.nodup_append] at hnd
      obtain ⟨hna, hnb, hdisj⟩ := hnd
      simp only [activeOk, Bool.and_eq_true] at hok
      simp only [findLeafById] at hfind
      cases hfa : findLeafById a i with
      | some l₀ =>
          rw [hfa] at hfind
          have hll : l₀ = l := by simpa [Option.orElse] using hfind
          subst hll
          have hmem : i ∈ leafIds a := findLeafById_mem hfa
          have hnotb : i ∉ leafIds b := fun hb => hdisj hmem hb
          have hb : updateLeaf b i f = b := updateLeaf_not_mem hnotb
          simp [updateLeaf, activeOk, hb, iha hna hfa hok.1, hok.2]
      | none =>
          rw [hfa] at hfind
          simp only [Option.orElse] at hfind
          have hnota : i ∉ leafIds a := findLeafById_none_not_mem hfa
          have ha : updateLeaf a i f = a := updateLeaf_not_mem hnota
          simp [updateLeaf, activeOk, ha, ihb hnb hfind hok.2, hok.1]

/-! ## Lemmas on `updateNode` with a ratio-only update -/

theorem updateNode_not_found {t : SplitTree} {i : String} {u : NodeUpdates}
    (h : hasNodeId t i = false) : updateNode t i u = t := by
  induction t with
  | leaf l => simp [updateNode]
  | node j d r a b iha ihb =>
      simp only [hasNodeId, Bool.or_eq_false_iff, beq_eq_false_iff_ne, ne_eq] at h
      simp [updateNode, h.1.1, iha h.1.2, ihb h.2]

theorem leafIds_updateNode_ratioOnly {t : SplitTree} {i : String} {r : ℚ} :
    leafIds (updateNode t i (NodeUpdates.ratioOnly r)) = leafIds t := by
  induction t with
  | leaf l => simp [updateNode]
  | node j d r' a b iha ihb =>
      by_cases hj : j = i
      · simp [updateNode, hj, NodeUpdates.ratioOnly, leafIds]
      · simp [updateNode, hj, leafIds, iha, ihb]

theorem activeOk_updateNode_ratioOnly {t : SplitTree} {i : String} {r : ℚ} :
    activeOk (updateNode t i (NodeUpdates.ratioOnly r)) = activeOk t := by
  induction t with
  | leaf l => simp [updateNode]
  | node j d r' a b iha ihb =>
      by_cases hj : j = i
      · simp [updateNode, hj, NodeUpdates.ratioOnly, activeOk]
      · simp [updateNode, hj, activeOk, iha, ihb]

theorem ratiosInRange_updateNode_ratioOnly {t : SplitTree} {i : String} {r : ℚ}
    (hr : (0.1 : ℚ) ≤ r ∧ r ≤ 0.9)
    (h : ratiosInRange t = true) :
    ratiosInRange (updateNode t i (NodeUpdates.ratioOnly r)) = true := by
  induction t with
  | leaf l => simpa [updateNode] using h
  | node j d r' a b iha ihb =>
      simp only [ratiosInRange, Bool.and_eq_true] at h
      by_cases hj : j = i
      · simp [updateNode, hj, NodeUpdates.ratioOnly, ratiosInRange, h.1.2, h.2, hr]
      · simp [updateNode, hj, ratiosInRange, iha h.1.2, ihb h.2, of_decide_eq_true h.1.1]

/-! ## Lemmas on `updateTabInTree` -/

theorem applyTabUpdates_id (tb : EditorTab) (u : TabUpdates) :
    (applyTabUpdates tb u).id = tb.id := rfl

theorem updateTabInTree_not_found {t : SplitTree} {i : String} {u : TabUpdates}
    (h : hasTabId t i = false) : updateTabInTree t i u = t := by
  induction t with
  | leaf l =>
      have hl : l.tabs.any (fun tb => tb.id == i) = false := by simpa [hasTabId] using h
      simp [updateTabInTree, hl]
  | node j d r a b iha ihb =>
      simp only [hasTabId, Bool.or_eq_false_iff] at h
      simp [updateTabInTree, iha h.1, ihb h.2]

theorem leafIds_updateTabInTree {t : SplitTree} {i : String} {u : TabUpdates} :
    leafIds (updateTabInTree t i u) = leafIds t := by
  induction t with
  | leaf l =>
      by_cases hl : l.tabs.any (fun tb => tb.id == i)
      · simp [updateTabInTree, hl, leafIds]
      · simp [updateTabInTree, hl]
  | node j d r a b iha ihb => simp [updateTabInTree, leafIds, iha, ihb]

theorem ratiosInRange_updateTabInTree {t : SplitTree} {i : String} {u : TabUpdates} :
    ratiosInRange (updateTabInTree t i u) = ratiosInRange t := by
  induction t with
  | leaf l =>
      by_cases hl : l.tabs.any (fun tb => tb.id == i)
      · simp [updateTabInTree, hl, ratiosInRange]
      · simp [updateTabInTree, hl]
  | node j d r a b iha ihb => simp [updateTabInTree, ratiosInRange, iha, ihb]

theorem activeOk_updateTabInTree {t : SplitTree} {i : String} {u : TabUpdates}
    (h : activeOk t = true) : activeOk (updateTabInTree t i u) = true := by
  induction t with
  | leaf l =>
      by_cases hl : l.tabs.any (fun tb => tb.id == i)
      · simp only [updateTabInTree, hl, if_pos, activeOk] at h ⊢
        unfold leafActiveOk at h ⊢
        cases hact : l.activeTabId with
        | none => simp
        | some x =>
            rw [hact] at h
            simp only [List.any_map]
            have : ((fun tb => tb.id == x) ∘ fun tb =>
                if tb.id = i then applyTabUpdates tb u else tb) = fun tb => tb.id == x := by
              funext tb
              by_cases hti : tb.id = i <;> simp [Function.comp, hti, applyTabUpdates_id]
            rw [this]
            exact h
      · simpa [updateTabInTree, hl] using h
  | node j d r a b iha ihb =>
      simp only [activeOk, Bool.and_eq_true] at h
      simp [updateTabInTree, activeOk, iha h.1, ihb h.2]

/-! ## Lemmas on `splitLeaf` -/

theorem splitLeaf_leaf {nu lu i : String} {dir : SplitDirection} {l : SplitLeaf} :
    splitLeaf nu lu i dir (SplitTree.leaf l)
      = if l.id = i then
          SplitTree.node ("node-" ++ nu) dir 0.5 (.leaf l)
            (.leaf { id := "leaf-" ++ lu, tabs := [], activeTabId := none })
        else .leaf l := rfl

theorem splitLeaf_node {nu lu i : String} {dir : SplitDirection} {j : String}
    {d : SplitDirection} {r : ℚ} {a b : SplitTree} :
    splitLeaf nu lu i dir (SplitTree.node j d r a b)
      = SplitTree.node j d r (splitLeaf nu lu i dir a) (splitLeaf nu lu i dir b) := rfl

theorem splitLeaf_not_mem {t : SplitTree} {nu lu i : String} {dir : SplitDirection}
    (h : i ∉ leafIds t) : splitLeaf nu lu i dir t = t := by
  unfold splitLeaf
  exact replaceNode_not_mem h

theorem activeOk_splitLeaf {t : SplitTree} {nu lu i : String} {dir : SplitDirection}
    (h : activeOk t = true) : activeOk (splitLeaf nu lu i dir t) = true := by
  induction t with
  | leaf l =>
      by_cases hl : l.id = i
      · rw [splitLeaf_leaf, if_pos hl]
        simpa [activeOk, leafActiveOk] using h
      · rw [splitLeaf_leaf, if_neg hl]
        exact h
  | node j d r a b iha ihb =>
      simp only [activeOk, Bool.and_eq_true] at h
      rw [splitLeaf_node]
      simp [activeOk, iha h.1, ihb h.2]

theorem ratiosInRange_splitLeaf {t : SplitTree} {nu lu i : String} {dir : SplitDirection}
    (h : ratiosInRange t = true) : ratiosInRange (splitLeaf nu lu i dir t) = true := by
  induction t with
  | leaf l =>
      by_cases hl : l.id = i
      · rw [splitLeaf_leaf, if_pos hl]
        have h05 : decide ((0.1 : ℚ) ≤ 0.5 ∧ (0.5 : ℚ) ≤ 0.9) = true := by
          rw [decide_eq_true_eq]
          constructor <;> norm_num
        simp [ratiosInRange, h05]
      · rw [splitLeaf_leaf, if_neg hl]
        exact h
  | node j d r a b iha ihb =>
      simp only [ratiosInRange, Bool.and_eq_true] at h
      rw [splitLeaf_node]
      simp only [ratiosInRange, Bool.and_eq_true]
      exact ⟨⟨h.1.1, iha h.1.2⟩, ihb h.2⟩

theorem leafIds_splitLeaf_subset {t : SplitTree} {nu lu i : String} {dir : SplitDirection} :
    ∀ x ∈ leafIds (splitLeaf nu lu i dir t), x ∈ leafIds t ∨ x = "leaf-" ++ lu := by
  induction t with
  | leaf l =>
      intro x hx
      by_cases hl : l.id = i
      · rw [splitLeaf_leaf, if_pos hl] at hx
        simp only [leafIds, List.mem_append, List.mem_singleton] at hx
        rcases hx with hx | hx
        · exact Or.inl (by simpa [leafIds] using hx)
        · exact Or.inr hx
      · rw [splitLeaf_leaf, if_neg hl] at hx
        exact Or.inl hx
  | node j d r a b iha ihb =>
      intro x hx
      rw [splitLeaf_node] at hx
      simp only [leafIds, List.mem_append] at hx ⊢
      rcases hx with hx | hx
      · rcases iha x hx with h | h
        · exact Or.inl (Or.inl h)
        · exact Or.inr h
      · rcases ihb x hx with h | h
        · exact Or.inl (Or.inr h)
        · exact Or.inr h

theorem nodup_leafIds_splitLeaf {t : SplitTree} {nu lu i : String} {dir : SplitDirection}
    (hnd : (leafIds t).Nodup) (hfresh : ("leaf-" ++ lu) ∉ leafIds t) :
    (leafIds (splitLeaf nu lu i dir t)).Nodup := by
  induction t with
  | leaf l =>
      by_cases hl : l.id = i
      · rw [splitLeaf_leaf, if_pos hl]
        have hne : l.id ≠ "leaf-" ++ lu := fun he => hfresh (by simp [leafIds, he])
        simp [leafIds, hne]
      · rw [splitLeaf_leaf, if_neg hl]
        exact hnd
  | node j d r a b iha ihb =>
      simp only [leafIds, List.nodup_append] at hnd
      obtain ⟨hna, hnb, hdisj⟩ := hnd
      simp only [leafIds, List.mem_append] at hfresh
      push_neg at hfresh
      rw [splitLeaf_node]
      simp only [leafIds, List.nodup_append]
      by_cases hia : i ∈ leafIds a
      · have hib : i ∉ leafIds b := fun hb => hdisj hia hb
        have hbeq : splitLeaf nu lu i dir b = b := splitLeaf_not_mem hib
        rw [hbeq]
        refine ⟨iha hna hfresh.1, hnb, ?_⟩
        intro x hx
        rcases leafIds_splitLeaf_subset x hx with h | h
        · exact hdisj h
        · subst h
          exact hfresh.2
      · have haeq : splitLeaf nu lu i dir a = a := splitLeaf_not_mem hia
        rw [haeq]
        refine ⟨hna, ihb hnb hfresh.2, ?_⟩
        intro x hx hxb
        rcases leafIds_splitLeaf_subset x hxb with h | h
        · exact hdisj hx h
        · subst h
          exact hfresh.1 hx

/-! ## Lemmas on `openTab` -/

theorem openTab_target_none {uuid : String} {d : TabData} {lid : Option String}
    {t : SplitTree} (h : resolveTarget t lid = none) : openTab uuid d lid t = t := by
  unfold openTab
  rw [h]

theorem openTab_dedup {uuid : String} {d : TabData} {lid : Option String}
    {t : SplitTree} {target : SplitLeaf} {e : EditorTab}
    (htl : resolveTarget t lid = some target) (hscan : dedupScan d target = some e) :
    openTab uuid d lid t
      = updateLeaf t target.id (fun leaf => { leaf with activeTabId := some e.id }) := by
  simp only [openTab, htl, hscan]

theorem openTab_append {uuid : String} {d : TabData} {lid : Option String}
    {t : SplitTree} {target : SplitLeaf}
    (htl : resolveTarget t lid = some target) (hscan : dedupScan d target = none) :
    openTab uuid d lid t
      = updateLeaf t target.id (fun leaf =>
          { leaf with
            tabs := leaf.tabs ++
              [{ id := "tab-" ++ uuid, title := d.title, type := d.type,
                 dirty := d.dirty, meta := d.meta }],
            activeTabId := some ("tab-" ++ uuid) }) := by
  simp only [openTab, htl, hscan]

theorem resolveTarget_found {t : SplitTree} {lid : Option String} {target : SplitLeaf}
    (htl : resolveTarget t lid = some target) :
    findLeafById t target.id = some target := by
  cases lid with
  | none =>
      have : findFirstLeaf t = target := by simpa [resolveTarget] using htl
      rw [← this]
      exact findFirstLeaf_findLeafById t
  | some s =>
      by_cases hs : s = ""
      · have : findFirstLeaf t = target := by simpa [resolveTarget, hs] using htl
        rw [← this]
        exact findFirstLeaf_findLeafById t
      · have hfind : findLeafById t s = some target := by simpa [resolveTarget, hs] using htl
        have hid : target.id = s := findLeafById_id hfind
        rw [hid]
        exact hfind

theorem dedupScan_mem {d : TabData} {target : SplitLeaf} {e : EditorTab}
    (hscan : dedupScan d target = some e) : e ∈ target.tabs := by
  unfold dedupScan at hscan
  split at hscan
  · exact List.mem_of_find?_eq_some hscan
  · exact absurd hscan (by simp)

theorem leafIds_openTab {uuid : String} {d : TabData} {lid : Option String}
    {t : SplitTree} : leafIds (openTab uuid d lid t) = leafIds t := by
  cases htl : resolveTarget t lid with
  | none => rw [openTab_target_none htl]
  | some target =>
      cases hscan : dedupScan d target with
      | some e => rw [openTab_dedup htl hscan]; exact leafIds_updateLeaf (fun l => rfl)
      | none => rw [openTab_append htl hscan]; exact leafIds_updateLeaf (fun l => rfl)

theorem activeOk_openTab {uuid : String} {d : TabData} {lid : Option String}
    {t : SplitTree} (hnd : (leafIds t).Nodup) (h : activeOk t = true) :
    activeOk (openTab uuid d lid t) = true := by
  cases htl : resolveTarget t lid with
  | none => rw [openTab_target_none htl]; exact h
  | some target =>
      have hfind : findLeafById t target.id = some target := resolveTarget_found htl
      cases hscan : dedupScan d target with
      | some e =>
          rw [openTab_dedup htl hscan]
          refine activeOk_updateLeaf_target hnd hfind h ?_
          have he : e ∈ target.tabs := dedupScan_mem hscan
          simp only [leafActiveOk, List.any_eq_true]
          exact ⟨e, he, by simp⟩
      | none =>
          rw [openTab_append htl hscan]
          refine activeOk_updateLeaf_target hnd hfind h ?_
          simp [leafActiveOk, List.any_eq_true]

/-! ## Per-leaf facts about the tab-closing updaters -/

theorem leafActiveOk_closeTab_updater (tabId : String) (l : SplitLeaf)
    (hl : leafActiveOk l = true) :
    leafActiveOk
      { id := l.id, tabs := l.tabs.filter (fun tb => tb.id ≠ tabId),
        activeTabId :=
          if l.activeTabId = some tabId then
            match (l.tabs.filter (fun tb => tb.id ≠ tabId)).getLast? with
            | some last => some last.id
            | none => none
          else l.activeTabId } = true := by
  by_cases hact : l.activeTabId = some tabId
  · simp only [leafActiveOk, if_pos hact]
    cases hlast : (l.tabs.filter (fun tb => tb.id ≠ tabId)).getLast? with
    | none => rfl
    | some last =>
        simp only [List.any_eq_true]
        exact ⟨last, List.mem_of_mem_getLast? hlast, by simp⟩
  · simp only [leafActiveOk, if_neg hact]
    cases hactv : l.activeTabId with
    | none => rfl
    | some x =>
        have hx : x ≠ tabId := fun he => hact (by rw [hactv, he])
        simp only [leafActiveOk, hactv, List.any_eq_true] at hl
        obtain ⟨tb, htb, hid⟩ := hl
        have hid2 : tb.id = x := by simpa using hid
        simp only [List.any_eq_true]
        exact ⟨tb, List.mem_filter.mpr ⟨htb, by simp [hid2, hx]⟩, by simp [hid2]⟩

theorem leafActiveOk_closeOtherTabs_updater (tabId : String) (l : SplitLeaf)
    (hl : leafActiveOk l = true) :
    leafActiveOk
      (match List.find? (fun tb => tb.id == tabId) l.tabs with
       | none => l
       | some tabToKeep =>
           { l with tabs := [tabToKeep], activeTabId := some tabToKeep.id }) = true := by
  cases hfind : List.find? (fun tb => tb.id == tabId) l.tabs with
  | none => simpa using hl
  | some keep => simp [leafActiveOk]

theorem leafActiveOk_closeTabsToRight_updater (tabId : String) (l : SplitLeaf)
    (hl : leafActiveOk l = true) :
    leafActiveOk
      (match List.findIdx? (fun tb => tb.id == tabId) l.tabs with
       | none => l
       | some tabIndex =>
           { l with
             tabs := l.tabs.take (tabIndex + 1)
             activeTabId :=
               if (l.tabs.take (tabIndex + 1)).any
                   (fun tb => some tb.id = l.activeTabId) then l.activeTabId
               else
                 match (l.tabs.take (tabIndex + 1)).getLast? with
                 | some last => some last.id
                 | none => none }) = true := by
  cases hfind : List.findIdx? (fun tb => tb.id == tabId) l.tabs with
  | none => simpa using hl
  | some idx =>
      by_cases hsurv : (l.tabs.take (idx + 1)).any (fun tb => some tb.id = l.activeTabId)
      · simp only [leafActiveOk, hsurv, if_pos]
        rw [List.any_eq_true] at hsurv
        obtain ⟨tb, htb, hid⟩ := hsurv
        have hid' : some tb.id = l.activeTabId := of_decide_eq_true hid
        rw [← hid', List.any_eq_true]
        exact ⟨tb, htb, by simp⟩
      · cases hlast : (l.tabs.take (idx + 1)).getLast? with
        | none => simp [leafActiveOk, hsurv, hlast]
        | some last =>
            have hmem : last ∈ l.tabs.take (idx + 1) :=
              List.mem_of_mem_getLast? (by simp [hlast])
            simp only [leafActiveOk, hsurv, if_neg, hlast, List.any_eq_true,
              Bool.not_eq_true]
            exact ⟨last, hmem, by simp⟩

/-! ## The reachable-state invariant -/

/-- Leaf ids are pairwise distinct and every leaf's `activeTabId` refers to
one of its own tabs. -/
def goodInv (t : SplitTree) : Prop :=
  (leafIds t).Nodup ∧ activeOk t = true

theorem goodInv_applyOp {op : LayoutOp} {t : SplitTree}
    (hg : goodInv t) (hguard : opGuard op t = true) : goodInv (applyOp op t) := by
  obtain ⟨hnd, hok⟩ := hg
  cases op with
  | openTab uuid d lid =>
      refine ⟨?_, activeOk_openTab hnd hok⟩
      show (leafIds (openTab uuid d lid t)).Nodup
      rw [leafIds_openTab]
      exact hnd
  | closeTab tabId leafId =>
      refine ⟨?_, ?_⟩
      · show (leafIds (closeTab tabId leafId t)).Nodup
        rw [closeTab, leafIds_updateLeaf]
        · exact hnd
        · intro l
          rfl
      · show activeOk (closeTab tabId leafId t) = true
        exact activeOk_updateLeaf_of_pres
          (fun l hl => leafActiveOk_closeTab_updater tabId l hl) hok
  | closeOtherTabs tabId leafId =>
      refine ⟨?_, ?_⟩
      · show (leafIds (closeOtherTabs tabId leafId t)).Nodup
        rw [closeOtherTabs, leafIds_updateLeaf]
        · exact hnd
        · intro l
          cases hfind : List.find? (fun tb => tb.id == tabId) l.tabs <;> simp [hfind]
      · show activeOk (closeOtherTabs tabId leafId t) = true
        exact activeOk_updateLeaf_of_pres
          (fun l hl => leafActiveOk_closeOtherTabs_updater tabId l hl) hok
  | closeTabsToRight tabId leafId =>
      refine ⟨?_, ?_⟩
      · show (leafIds (closeTabsToRight tabId leafId t)).Nodup
        rw [closeTabsToRight, leafIds_updateLeaf]
        · exact hnd
        · intro l
          cases hfind : List.findIdx? (fun tb => tb.id == tabId) l.tabs <;> simp [hfind]
      · show activeOk (closeTabsToRight tabId leafId t) = true
        exact activeOk_updateLeaf_of_pres
          (fun l hl => leafActiveOk_closeTabsToRight_updater tabId l hl) hok
  | closeAllTabs leafId =>
      refine ⟨?_, ?_⟩
      · show (leafIds (closeAllTabs leafId t)).Nodup
        rw [closeAllTabs, leafIds_updateLeaf]
        · exact hnd
        · intro l
          rfl
      · show activeOk (closeAllTabs leafId t) = true
        exact activeOk_updateLeaf_of_pres (fun l _ => by simp [leafActiveOk]) hok
  | setActiveTab tabId leafId =>
      refine ⟨?_, ?_⟩
      · show (leafIds (setActiveTab tabId leafId t)).Nodup
        rw [setActiveTab, leafIds_updateLeaf]
        · exact hnd
        · intro l
          rfl
      · show activeOk (setActiveTab tabId leafId t) = true
        simp only [opGuard] at hguard
        cases hfind : findLeafById t leafId with
        | none =>
            rw [setActiveTab, updateLeaf_not_mem (findLeafById_none_not_mem hfind)]
            exact hok
        | some l =>
            rw [hfind] at hguard
            refine activeOk_updateLeaf_target hnd hfind hok ?_
            simpa [leafActiveOk] using hguard
  | updateTab tabId u =>
      refine ⟨?_, ?_⟩
      · show (leafIds (updateTab tabId u t)).Nodup
        rw [updateTab, leafIds_updateTabInTree]
        exact hnd
      · show activeOk (updateTab tabId u t) = true
        exact activeOk_updateTabInTree hok
  | splitLeaf nu lu leafId dir =>
      have hfresh : ("leaf-" ++ lu) ∉ leafIds t := by
        simpa [opGuard] using hguard
      exact ⟨nodup_leafIds_splitLeaf hnd hfresh, activeOk_splitLeaf hok⟩
  | resizeNode nodeId r =>
      refine ⟨?_, ?_⟩
      · show (leafIds (resizeNode nodeId r t)).Nodup
        rw [resizeNode, leafIds_updateNode_ratioOnly]
        exact hnd
      · show activeOk (resizeNode nodeId r t) = true
        rw [resizeNode, activeOk_updateNode_ratioOnly]
        exact hok

theorem goodInv_applyOps {ops : List LayoutOp} {t : SplitTree}
    (hg : goodInv t) (hguard : guardedFrom t ops = true) : goodInv (applyOps ops t) := by
  induction ops generalizing t with
  | nil => exact hg
  | cons op ops ih =>
      simp only [guardedFrom, Bool.and_eq_true] at hguard
      exact ih (goodInv_applyOp hg hguard.1) hguard.2

/-! ## Leaves of a tree, and global id observations -/

/-- All leaves of the tree, in depth-first order. -/
def leaves : SplitTree → List SplitLeaf
  | .leaf l => [l]
  | .node _ _ _ a b => leaves a ++ leaves b

/-- All tabs anywhere in the tree, in depth-first order. -/
def allTabs : SplitTree → List EditorTab
  | .leaf l => l.tabs
  | .node _ _ _ a b => allTabs a ++ allTabs b

theorem allTabs_updateLeaf {t : SplitTree} {i : String} {f : SplitLeaf → SplitLeaf}
    (h : ∀ l : SplitLeaf, (f l).tabs = l.tabs) :
    allTabs (updateLeaf t i f) = allTabs t := by
  induction t with
  | leaf l =>
      by_cases hl : l.id = i
      · simp [updateLeaf, hl, allTabs, h l]
      · simp [updateLeaf, hl]
  | node j d r a b iha ihb => simp [updateLeaf, allTabs, iha, ihb]

theorem updateLeaf_congr_leaves {t : SplitTree} {i : String} {f : SplitLeaf → SplitLeaf}
    (h : ∀ l ∈ leaves t, l.id = i → f l = l) : updateLeaf t i f = t := by
  induction t with
  | leaf l =>
      by_cases hl : l.id = i
      · simp [updateLeaf, hl, h l (by simp [leaves]) hl]
      · simp [updateLeaf, hl]
  | node j d r a b iha ihb =>
      have ha : ∀ l ∈ leaves a, l.id = i → f l = l :=
        fun l hm => h l (by simp [leaves, hm])
      have hb : ∀ l ∈ leaves b, l.id = i → f l = l :=
        fun l hm => h l (by simp [leaves, hm])
      simp [updateLeaf, iha ha, ihb hb]

theorem hasTabId_false_of_leaf {t : SplitTree} {i : String} {l : SplitLeaf}
    (h : hasTabId t i = false) (hl : l ∈ leaves t) :
    l.tabs.any (fun tb => tb.id == i) = false := by
  induction t with
  | leaf l' =>
      simp only [leaves, List.mem_singleton] at hl
      subst hl
      simpa [hasTabId] using h
  | node j d r a b iha ihb =>
      simp only [hasTabId, Bool.or_eq_false_iff] at h
      simp only [leaves, List.mem_append] at hl
      rcases hl with hl | hl
      · exact iha h.1 hl
      · exact ihb h.2 hl

theorem isActiveSomewhere_false_of_leaf {t : SplitTree} {i : String} {l : SplitLeaf}
    (h : isActiveSomewhere t i = false) (hl : l ∈ leaves t) :
    l.activeTabId ≠ some i := by
  induction t with
  | leaf l' =>
      simp only [leaves, List.mem_singleton] at hl
      subst hl
      simpa [isActiveSomewhere] using h
  | node j d r a b iha ihb =>
      simp only [isActiveSomewhere, Bool.or_eq_false_iff] at h
      simp only [leaves, List.mem_append] at hl
      rcases hl with hl | hl
      · exact iha h.1 hl
      · exact ihb h.2 hl

theorem findLeafById_updateLeaf_tabs {t : SplitTree} {i j : String}
    {f : SplitLeaf → SplitLeaf} (hid : ∀ l : SplitLeaf, (f l).id = l.id)
    (htabs : ∀ l : SplitLeaf, (f l).tabs = l.tabs) :
    ((findLeafById (updateLeaf t i f) j).map SplitLeaf.tabs)
      = (findLeafById t j).map SplitLeaf.tabs := by
  by_cases hj : j = i
  · subst hj
    rw [findLeafById_updateLeaf hid]
    cases findLeafById t j with
    | none => rfl
    | some l => simp [htabs l]
  · rw [findLeafById_updateLeaf_ne hj hid]

/-! ## List facts used by the tab-closing specifications -/

theorem filter_remove_unique {pre post : List EditorTab} {tb : EditorTab} {tabId : String}
    (htb : tb.id = tabId) (hothers : ∀ x ∈ pre ++ post, x.id ≠ tabId) :
    (pre ++ tb :: post).filter (fun x => x.id ≠ tabId) = pre ++ post := by
  have hpre : List.filter (fun x => !decide (x.id = tabId)) pre = pre :=
    List.filter_eq_self.mpr
      (fun a ha => by simp [hothers a (List.mem_append_left _ ha)])
  have hpost : List.filter (fun x => !decide (x.id = tabId)) post = post :=
    List.filter_eq_self.mpr
      (fun a ha => by simp [hothers a (List.mem_append_right _ ha)])
  rw [List.filter_append, List.filter_cons]
  simp [htb, hpre, hpost]

theorem findIdx?_first_hit {pre post : List EditorTab} {tb : EditorTab} {tabId : String}
    (htb : tb.id = tabId) (hpre : ∀ x ∈ pre, x.id ≠ tabId) :
    List.findIdx? (fun x => x.id == tabId) (pre ++ tb :: post) = some pre.length := by
  induction pre with
  | nil => simp [List.findIdx?_cons, htb]
  | cons a pre ih =>
      have ha : (a.id == tabId) = false := by
        simpa using hpre a (by simp)
      have ih2 := ih (fun x hx => hpre x (by simp [hx]))
      simp [List.findIdx?_cons, ha, ih2]

theorem take_succ_len {α : Type} (pre post : List α) (x : α) :
    (pre ++ x :: post).take (pre.length + 1) = pre ++ [x] := by
  induction pre with
  | nil => simp
  | cons a pre ih => simpa [List.take] using ih

theorem find?_append_right {p : EditorTab → Bool} {l1 l2 : List EditorTab}
    (h1 : List.find? p l1 = none) :
    List.find? p (l1 ++ l2) = List.find? p l2 := by
  rw [List.find?_append, h1]
  rfl

/-! ## Claim theorems -/

/-- C2, counterexample. The claim says entries of any other connection are
left unchanged by `removeConnection`, naming keys of a connection id that
merely has the removed id as a string prefix. In the `errors` map the code
deletes by plain `startsWith(profileId)`: removing connection `"p"` deletes
the error recorded under the unrelated connection id `"p2"`, a key that is
neither `"p"` nor prefixed by `"p::"`. -/
theorem C2_counterexample :
    ({ connectedProfiles := fun _ => none, databases := fun _ => none,
       tables := fun _ => none, columns := fun _ => none,
       loadingDatabases := fun _ => none, loadingTables := fun _ => none,
       loadingColumns := fun _ => none,
       errors := fun k => if k = "p2" then some "boom" else none : SchemaState}).errors "p2"
        = some "boom"
    ∧ ("p2" = "p") = False
    ∧ jsStartsWith "p2" ("p" ++ "::") = false
    ∧ (removeConnection "p"
        { connectedProfiles := fun _ => none, databases := fun _ => none,
          tables := fun _ => none, columns := fun _ => none,
          loadingDatabases := fun _ => none, loadingTables := fun _ => none,
          loadingColumns := fun _ => none,
          errors := fun k => if k = "p2" then some "boom" else none }).errors "p2"
        = none := by
  refine ⟨by decide, by simp, by decide, ?_⟩
  show (if jsStartsWith "p2" "p" then none
        else if ("p2" : String) = "p2" then some "boom" else none) = none
  decide

/-- C2, amended. `removeConnection(c)` deletes, pointwise over every key `k`:
from `databases` exactly the key `k = c` (a key `c::…` there would survive);
from `tables` and `columns` exactly the keys starting with `c ++ "::"` (a key
exactly `c` there would survive); and from `errors` every key having `c` as a
plain string prefix — which covers `c` and all `c::…` keys but also deletes
keys of any other connection id extending `c`. All other entries of each map
are unchanged. -/
theorem C2_removeConnection_eviction (c : String) (s : SchemaState) (k : String) :
    ((removeConnection c s).databases k = if k = c then none else s.databases k)
    ∧ ((removeConnection c s).tables k
        = if jsStartsWith k (c ++ "::") then none else s.tables k)
    ∧ ((removeConnection c s).columns k
        = if jsStartsWith k (c ++ "::") then none else s.columns k)
    ∧ ((removeConnection c s).errors k
        = if jsStartsWith k c then none else s.errors k) :=
  ⟨rfl, rfl, rfl, rfl⟩

/-- C10. `removeConnection` never writes the three loading maps: the partial
state it returns omits `loadingDatabases`, `loadingTables` and
`loadingColumns`, so zustand's shallow merge keeps them identical — every
loading flag, including one still `true` for an in-flight fetch, survives the
eviction. -/
theorem C10_removeConnection_loading_frame (c : String) (s : SchemaState) :
    (removeConnection c s).loadingDatabases = s.loadingDatabases
    ∧ (removeConnection c s).loadingTables = s.loadingTables
    ∧ (removeConnection c s).loadingColumns = s.loadingColumns :=
  ⟨rfl, rfl, rfl⟩

theorem ratiosInRange_applyOp_splitOrResize {op : LayoutOp} {t : SplitTree}
    (hop : splitOrClampedResize op = true) (h : ratiosInRange t = true) :
    ratiosInRange (applyOp op t) = true := by
  cases op with
  | splitLeaf nu lu leafId dir => exact ratiosInRange_splitLeaf h
  | resizeNode nodeId r =>
      have hr : (0.1 : ℚ) ≤ r ∧ r ≤ 0.9 := by
        simpa [splitOrClampedResize] using hop
      show ratiosInRange (updateNode t nodeId (NodeUpdates.ratioOnly r)) = true
      exact ratiosInRange_updateNode_ratioOnly hr h
  | openTab uuid d lid => simp [splitOrClampedResize] at hop
  | closeTab tabId leafId => simp [splitOrClampedResize] at hop
  | closeOtherTabs tabId leafId => simp [splitOrClampedResize] at hop
  | closeTabsToRight tabId leafId => simp [splitOrClampedResize] at hop
  | closeAllTabs leafId => simp [splitOrClampedResize] at hop
  | setActiveTab tabId leafId => simp [splitOrClampedResize] at hop
  | updateTab tabId u => simp [splitOrClampedResize] at hop

theorem ratiosInRange_applyOps_splitOrResize {ops : List LayoutOp} {t : SplitTree}
    (hops : ops.all splitOrClampedResize = true) (h : ratiosInRange t = true) :
    ratiosInRange (applyOps ops t) = true := by
  induction ops generalizing t with
  | nil => exact h
  | cons op ops ih =>
      simp only [List.all_cons, Bool.and_eq_true] at hops
      exact ih hops.2 (ratiosInRange_applyOp_splitOrResize hops.1 h)

/-- C1, counterexample. The claim says `resizeNode` clamps its argument to
`[0.1, 0.9]` before writing. It does not: after splitting the root leaf,
`resizeNode` with argument `5` stores the ratio `5` verbatim, so a
split/resize sequence from the initial tree reaches a node whose ratio lies
outside `[0.1, 0.9]`. -/
theorem C1_counterexample :
    applyOps [LayoutOp.splitLeaf "n" "l" "root-editor" SplitDirection.horizontal,
              LayoutOp.resizeNode "node-n" 5] initialEditorTree
      = SplitTree.node "node-n" SplitDirection.horizontal 5
          (.leaf { id := "root-editor", tabs := [], activeTabId := none })
          (.leaf { id := "leaf-l", tabs := [], activeTabId := none })
    ∧ ratiosInRange
        (applyOps [LayoutOp.splitLeaf "n" "l" "root-editor" SplitDirection.horizontal,
                   LayoutOp.resizeNode "node-n" 5] initialEditorTree) = false :=
  ⟨by decide, by decide⟩

/-- C1, amended. `resizeNode` writes `newRatio` verbatim, without any clamp
(the clamp `Math.min(Math.max(·, 0.1), 0.9)` lives in the drag handler of
`EditorNode.tsx`, the only in-repo caller). Consequently the ratio invariant
holds for every sequence of `splitLeaf` and `resizeNode` calls from the
initial single-leaf tree in which each `resizeNode` argument already lies in
`[0.1, 0.9]`: every node's ratio then stays in `[0.1, 0.9]`. -/
theorem C1_ratios_in_range_of_clamped_inputs (ops : List LayoutOp)
    (hops : ops.all splitOrClampedResize = true) :
    ratiosInRange (applyOps ops initialEditorTree) = true :=
  ratiosInRange_applyOps_splitOrResize hops rfl

/-- C1, witness: a concrete split followed by an in-range resize keeps every
ratio inside `[0.1, 0.9]`. -/
theorem C1_witness :
    ([LayoutOp.splitLeaf "n" "l" "root-editor" SplitDirection.horizontal,
      LayoutOp.resizeNode "node-n" 0.3].all splitOrClampedResize = true)
    ∧ ratiosInRange
        (applyOps [LayoutOp.splitLeaf "n" "l" "root-editor" SplitDirection.horizontal,
                   LayoutOp.resizeNode "node-n" 0.3] initialEditorTree) = true :=
  ⟨by decide,
   C1_ratios_in_range_of_clamped_inputs
     [LayoutOp.splitLeaf "n" "l" "root-editor" SplitDirection.horizontal,
      LayoutOp.resizeNode "node-n" 0.3] (by decide)⟩

/-- C3, counterexample. The claim says every reachable leaf's `activeTabId`
names one of its own tabs, over sequences that include `setActiveTab`. But
`setActiveTab` writes unconditionally: on the initial single empty leaf,
`setActiveTab("bogus", "root-editor")` reaches a state whose leaf has
`activeTabId = some "bogus"` and no tabs at all. -/
theorem C3_counterexample :
    activeOk (applyOps [LayoutOp.setActiveTab "bogus" "root-editor"] initialEditorTree)
      = false := by
  decide

/-- C3, amended. The per-leaf invariant — `activeTabId` absent or the id of a
tab in that leaf's `tabs` — holds in every state reachable from the initial
tree by openTab, closeTab, closeOtherTabs, closeTabsToRight, closeAllTabs,
setActiveTab, updateTab, splitLeaf and resizeNode, provided each
`setActiveTab` names a tab currently in the addressed leaf and each
`splitLeaf`'s fresh leaf id is really fresh (what `crypto.randomUUID()`
supplies); unrestricted `setActiveTab` can break it. -/
theorem C3_activeTab_invariant_guarded (ops : List LayoutOp)
    (hops : guardedFrom initialEditorTree ops = true) :
    activeOk (applyOps ops initialEditorTree) = true :=
  (goodInv_applyOps ⟨by decide, by decide⟩ hops).2

/-- C3, witness: opening a tab and then activating it by its id is a guarded
sequence, and the invariant holds in the resulting state. -/
theorem C3_witness :
    guardedFrom initialEditorTree
        [LayoutOp.openTab "u"
           { title := "Q1", type := EditorTabType.sql, dirty := none, meta := none } none,
         LayoutOp.setActiveTab "tab-u" "root-editor"] = true
    ∧ activeOk
        (applyOps
          [LayoutOp.openTab "u"
             { title := "Q1", type := EditorTabType.sql, dirty := none, meta := none } none,
           LayoutOp.setActiveTab "tab-u" "root-editor"] initialEditorTree) = true :=
  ⟨by decide,
   C3_activeTab_invariant_guarded
     [LayoutOp.openTab "u"
        { title := "Q1", type := EditorTabType.sql, dirty := none, meta := none } none,
      LayoutOp.setActiveTab "tab-u" "root-editor"] (by decide)⟩

theorem findIdx?_eq_none_of_all {p : EditorTab → Bool} {l : List EditorTab}
    (h : ∀ x ∈ l, p x = false) : List.findIdx? p l = none := by
  induction l with
  | nil => rfl
  | cons a l ih =>
      have ha : p a = false := h a (by simp)
      have ih2 := ih (fun x hx => h x (by simp [hx]))
      simp [List.findIdx?_cons, ha, ih2]

/-- C7, counterexample. The claim includes `setActiveTab` with a missing tab
id among the no-ops, but `setActiveTab` writes its argument unconditionally:
on the initial tree, `setActiveTab("bogus", "root-editor")` changes the tree
even though no tab `"bogus"` exists anywhere. -/
theorem C7_counterexample :
    setActiveTab "bogus" "root-editor" initialEditorTree ≠ initialEditorTree := by
  decide

/-- C7, amended. Operations addressed at ids absent from the tree are no-ops
(and, being total functions, throw nothing): any of closeTab,
closeOtherTabs, closeTabsToRight, closeAllTabs, setActiveTab and splitLeaf
with a leaf id no leaf carries; closeOtherTabs, closeTabsToRight and
updateTab with a tab id no tab carries; closeTab with a missing tab id
provided no leaf's `activeTabId` dangles at that id (a dangling active id
makes closeTab rewrite it); and resizeNode with a node id no node carries.
`setActiveTab` with a valid leaf but missing tab id is *not* a no-op. -/
theorem C7_missing_id_noops (t : SplitTree) (tabId leafId nodeId nu lu : String)
    (dir : SplitDirection) (u : TabUpdates) (r : ℚ) :
    (leafId ∉ leafIds t →
      closeTab tabId leafId t = t
      ∧ closeOtherTabs tabId leafId t = t
      ∧ closeTabsToRight tabId leafId t = t
      ∧ closeAllTabs leafId t = t
      ∧ setActiveTab tabId leafId t = t
      ∧ splitLeaf nu lu leafId dir t = t)
    ∧ (hasTabId t tabId = false →
        closeOtherTabs tabId leafId t = t
        ∧ closeTabsToRight tabId leafId t = t
        ∧ updateTab tabId u t = t
        ∧ (isActiveSomewhere t tabId = false → closeTab tabId leafId t = t))
    ∧ (hasNodeId t nodeId = false → resizeNode nodeId r t = t) := by
  refine ⟨fun h => ⟨?_, ?_, ?_, ?_, ?_, ?_⟩,
          fun h => ⟨?_, ?_, ?_, fun h2 => ?_⟩,
          fun h => ?_⟩
  · rw [closeTab, updateLeaf_not_mem h]
  · rw [closeOtherTabs, updateLeaf_not_mem h]
  · rw [closeTabsToRight, updateLeaf_not_mem h]
  · rw [closeAllTabs, updateLeaf_not_mem h]
  · rw [setActiveTab, updateLeaf_not_mem h]
  · exact splitLeaf_not_mem h
  · rw [closeOtherTabs]
    apply updateLeaf_congr_leaves
    intro l hl _
    have hany := hasTabId_false_of_leaf h hl
    have hfind : List.find? (fun tb => tb.id == tabId) l.tabs = none :=
      List.find?_eq_none.mpr (fun x hx hpx => by
        have hx2 : l.tabs.any (fun tb => tb.id == tabId) = true :=
          List.any_eq_true.mpr ⟨x, hx, hpx⟩
        rw [hany] at hx2
        exact Bool.false_ne_true hx2)
    simp [hfind]
  · rw [closeTabsToRight]
    apply updateLeaf_congr_leaves
    intro l hl _
    have hany := hasTabId_false_of_leaf h hl
    have hall : ∀ x ∈ l.tabs, (x.id == tabId) = false := by
      intro x hx
      by_contra hc
      have hx2 : l.tabs.any (fun tb => tb.id == tabId) = true :=
        List.any_eq_true.mpr ⟨x, hx, by simpa using hc⟩
      rw [hany] at hx2
      exact Bool.false_ne_true hx2
    have hfind : List.findIdx? (fun tb => tb.id == tabId) l.tabs = none :=
      findIdx?_eq_none_of_all hall
    simp [hfind]
  · rw [updateTab, updateTabInTree_not_found h]
  · rw [closeTab]
    apply updateLeaf_congr_leaves
    intro l hl _
    have hany := hasTabId_false_of_leaf h hl
    have hall : ∀ x ∈ l.tabs, (x.id == tabId) = false := by
      intro x hx
      by_contra hc
      have hx2 : l.tabs.any (fun tb => tb.id == tabId) = true :=
        List.any_eq_true.mpr ⟨x, hx, by simpa using hc⟩
      rw [hany] at hx2
      exact Bool.false_ne_true hx2
    have hact : ¬ l.activeTabId = some tabId := isActiveSomewhere_false_of_leaf h2 hl
    obtain ⟨lid, ltabs, lact⟩ := l
    have hfil : List.filter (fun tb => !decide (tb.id = tabId)) ltabs = ltabs :=
      List.filter_eq_self.mpr (fun x hx => by simpa using hall x hx)
    simp only at hact
    simp [hfil, hact]
  · rw [resizeNode, updateNode_not_found h]

/-- C7, witness: on the initial tree, the listed operations with the unknown
leaf id `"nope"`, the unknown tab id `"x"` and the unknown node id
`"nonode"` all return the tree unchanged. -/
theorem C7_witness :
    (closeTab "x" "nope" initialEditorTree = initialEditorTree
     ∧ closeOtherTabs "x" "nope" initialEditorTree = initialEditorTree
     ∧ closeTabsToRight "x" "nope" initialEditorTree = initialEditorTree
     ∧ closeAllTabs "nope" initialEditorTree = initialEditorTree
     ∧ setActiveTab "x" "nope" initialEditorTree = initialEditorTree
     ∧ splitLeaf "n" "l" "nope" SplitDirection.horizontal initialEditorTree
        = initialEditorTree)
    ∧ (closeOtherTabs "x" "nope" initialEditorTree = initialEditorTree
       ∧ closeTabsToRight "x" "nope" initialEditorTree = initialEditorTree
       ∧ updateTab "x" { title := none, meta := none } initialEditorTree
          = initialEditorTree
       ∧ closeTab "x" "nope" initialEditorTree = initialEditorTree)
    ∧ resizeNode "nonode" 0.5 initialEditorTree = initialEditorTree := by
  have h := C7_missing_id_noops initialEditorTree "x" "nope" "nonode" "n" "l"
      SplitDirection.horizontal { title := none, meta := none } 0.5
  refine ⟨h.1 (by decide), ?_, h.2.2 (by decide)⟩
  have h2 := h.2.1 (by decide)
  exact ⟨h2.1, h2.2.1, h2.2.2.1, h2.2.2.2 (by decide)⟩

/-- C8, counterexample. The claim says `openTab` with a leafId that is not in
the tree behaves like `openTab` without a leafId (appending to the first
leaf). In the code a given-but-unknown leafId makes `findLeafById` return
`null` and `openTab` return the state unchanged, while the no-leafId call
appends a tab — the two calls differ on the initial tree. -/
theorem C8_counterexample :
    openTab "u" { title := "Q1", type := EditorTabType.sql, dirty := none, meta := none }
        (some "nope") initialEditorTree = initialEditorTree
    ∧ openTab "u" { title := "Q1", type := EditorTabType.sql, dirty := none, meta := none }
        none initialEditorTree ≠ initialEditorTree :=
  ⟨by decide, by decide⟩

/-- C8, amended. `openTab` resolves its target as follows: with no leafId it
targets `findFirstLeaf` (equivalently, the call behaves exactly like passing
the first leaf's id); with a leafId naming a leaf it confines its effect to
that leaf (every other leaf id reads the same before and after); with a
leafId that names no leaf the call is a no-op, not a fallback to the first
leaf. -/
theorem C8_openTab_target_resolution (uuid : String) (d : TabData) (t : SplitTree)
    (lid : String) :
    (openTab uuid d none t = openTab uuid d (some (findFirstLeaf t).id) t)
    ∧ (lid ≠ "" → lid ∉ leafIds t → openTab uuid d (some lid) t = t)
    ∧ (∀ l : SplitLeaf, lid ≠ "" → findLeafById t lid = some l →
        ∀ j, j ≠ lid →
          findLeafById (openTab uuid d (some lid) t) j = findLeafById t j) := by
  refine ⟨?_, ?_, ?_⟩
  · have hres : resolveTarget t (some (findFirstLeaf t).id) = some (findFirstLeaf t) := by
      show (if (findFirstLeaf t).id = "" then some (findFirstLeaf t)
            else findLeafById t (findFirstLeaf t).id) = some (findFirstLeaf t)
      by_cases hid : (findFirstLeaf t).id = ""
      · rw [if_pos hid]
      · rw [if_neg hid]
        exact findFirstLeaf_findLeafById t
    show openTab uuid d none t = openTab uuid d (some (findFirstLeaf t).id) t
    unfold openTab
    rw [hres]
    rfl
  · intro hne hmem
    refine openTab_target_none ?_
    simp [resolveTarget, hne, findLeafById_eq_none hmem]
  · intro l hne hfind j hj
    have hres : resolveTarget t (some lid) = some l := by
      simp [resolveTarget, hne, hfind]
    have hid : l.id = lid := findLeafById_id hfind
    have hjne : j ≠ l.id := by rw [hid]; exact hj
    cases hscan : dedupScan d l with
    | some e =>
        rw [openTab_dedup hres hscan]
        exact findLeafById_updateLeaf_ne hjne (fun l2 => rfl)
    | none =>
        rw [openTab_append hres hscan]
        exact findLeafById_updateLeaf_ne hjne (fun l2 => rfl)

/-- C8, witness: on the initial tree, the no-leafId call equals the call with
the first leaf's id; the call with the unknown id `"nope"` is a no-op; and a
call addressed at `"root-editor"` leaves the unrelated id `"other"` reading
the same. -/
theorem C8_witness :
    (openTab "u" { title := "Q1", type := EditorTabType.sql, dirty := none, meta := none }
        none initialEditorTree
      = openTab "u" { title := "Q1", type := EditorTabType.sql, dirty := none, meta := none }
          (some (findFirstLeaf initialEditorTree).id) initialEditorTree)
    ∧ openTab "u" { title := "Q1", type := EditorTabType.sql, dirty := none, meta := none }
        (some "nope") initialEditorTree = initialEditorTree
    ∧ findLeafById
        (openTab "u" { title := "Q1", type := EditorTabType.sql, dirty := none, meta := none }
          (some "root-editor") initialEditorTree) "other"
        = findLeafById initialEditorTree "other" := by
  have h1 := C8_openTab_target_resolution "u"
      { title := "Q1", type := EditorTabType.sql, dirty := none, meta := none }
      initialEditorTree "nope"
  have h2 := C8_openTab_target_resolution "u"
      { title := "Q1", type := EditorTabType.sql, dirty := none, meta := none }
      initialEditorTree "root-editor"
  refine ⟨h1.1, h1.2.1 (by decide) (by decide), ?_⟩
  exact h2.2.2 { id := "root-editor", tabs := [], activeTabId := none }
    (by decide) (by decide) "other" (by decide)

/-- C4. For a `"database-view"` payload whose `meta` carries the identity key
(`profileId`, `database`), `openTab` on a leaf that already holds a tab of
that type with the same composite key creates no tab anywhere (the multiset
of tabs of the whole tree is unchanged) and merely points the leaf's
`activeTabId` at the first such existing tab; and starting from a leaf with
no tab of that identity, two `openTab` calls with the same identity yield a
leaf holding exactly one tab of that identity, with `activeTabId` pointing
at it after the first call and still after the second. -/
theorem C4_openTab_database_view_dedup (t : SplitTree) (lid : String) (l : SplitLeaf)
    (d : TabData) (m : StrMap)
    (hne : lid ≠ "") (hfind : findLeafById t lid = some l)
    (hty : d.type = EditorTabType.databaseView) (hmeta : d.meta = some m) :
    (∀ (uuid : String) (e : EditorTab),
       List.find? (dedupMatches (dedupKeyOf m)) l.tabs = some e →
       allTabs (openTab uuid d (some lid) t) = allTabs t
       ∧ findLeafById (openTab uuid d (some lid) t) lid
           = some { id := l.id, tabs := l.tabs, activeTabId := some e.id })
    ∧ (∀ u1 u2 : String,
       List.find? (dedupMatches (dedupKeyOf m)) l.tabs = none →
       (findLeafById (openTab u1 d (some lid) t) lid
          = some { id := l.id,
                   tabs := l.tabs ++
                     [{ id := "tab-" ++ u1, title := d.title, type := d.type,
                        dirty := d.dirty, meta := d.meta }],
                   activeTabId := some ("tab-" ++ u1) }
        ∧ ((l.tabs ++
              [({ id := "tab-" ++ u1, title := d.title, type := d.type,
                  dirty := d.dirty, meta := d.meta } : EditorTab)]).filter
             (dedupMatches (dedupKeyOf m))).length = 1
        ∧ findLeafById (openTab u2 d (some lid) (openTab u1 d (some lid) t)) lid
            = some { id := l.id,
                     tabs := l.tabs ++
                       [{ id := "tab-" ++ u1, title := d.title, type := d.type,
                          dirty := d.dirty, meta := d.meta }],
                     activeTabId := some ("tab-" ++ u1) })) := by
  have hid : l.id = lid := findLeafById_id hfind
  subst hid
  have hres : resolveTarget t (some l.id) = some l := by
    simp [resolveTarget, hne, hfind]
  constructor
  · intro uuid e hex
    have hscan : dedupScan d l = some e := by
      simp [dedupScan, hty, hmeta, hex]
    rw [openTab_dedup hres hscan]
    constructor
    · exact allTabs_updateLeaf (fun l2 => rfl)
    · rw [findLeafById_updateLeaf (t := t) (i := l.id)
          (f := fun leaf => { leaf with activeTabId := some e.id }) (fun l2 => rfl), hfind]
      rfl
  · intro u1 u2 hmiss
    have hscan : dedupScan d l = none := by
      simp [dedupScan, hty, hmeta, hmiss]
    have hmatch : dedupMatches (dedupKeyOf m)
        { id := "tab-" ++ u1, title := d.title, type := d.type,
          dirty := d.dirty, meta := d.meta } = true := by
      simp [dedupMatches, hty, hmeta]
    have h1 : findLeafById (openTab u1 d (some l.id) t) l.id
        = some { id := l.id,
                 tabs := l.tabs ++
                   [{ id := "tab-" ++ u1, title := d.title, type := d.type,
                      dirty := d.dirty, meta := d.meta }],
                 activeTabId := some ("tab-" ++ u1) } := by
      rw [openTab_append hres hscan]
      rw [findLeafById_updateLeaf (t := t) (i := l.id)
          (f := fun leaf =>
            { leaf with
              tabs := leaf.tabs ++
                [{ id := "tab-" ++ u1, title := d.title, type := d.type,
                   dirty := d.dirty, meta := d.meta }],
              activeTabId := some ("tab-" ++ u1) }) (fun l2 => rfl), hfind]
      rfl
    refine ⟨h1, ?_, ?_⟩
    · have hnil : l.tabs.filter (dedupMatches (dedupKeyOf m)) = [] :=
        List.filter_eq_nil_iff.mpr (fun x hx hpx => by
          rw [List.find?_eq_none] at hmiss
          exact hmiss x hx hpx)
      rw [List.filter_append, hnil, List.filter_cons, if_pos hmatch]
      rfl
    · have hres1 : resolveTarget (openTab u1 d (some l.id) t) (some l.id)
          = some { id := l.id,
                   tabs := l.tabs ++
                     [{ id := "tab-" ++ u1, title := d.title, type := d.type,
                        dirty := d.dirty, meta := d.meta }],
                   activeTabId := some ("tab-" ++ u1) } := by
        simp [resolveTarget, hne, h1]
      have hscan1 : dedupScan d
          { id := l.id,
            tabs := l.tabs ++
              [{ id := "tab-" ++ u1, title := d.title, type := d.type,
                 dirty := d.dirty, meta := d.meta }],
            activeTabId := some ("tab-" ++ u1) }
          = some { id := "tab-" ++ u1, title := d.title, type := d.type,
                   dirty := d.dirty, meta := d.meta } := by
        show (match d.type, d.meta with
          | EditorTabType.databaseView, some m2 =>
              List.find? (dedupMatches (dedupKeyOf m2))
                (l.tabs ++
                  [({ id := "tab-" ++ u1, title := d.title, type := d.type,
                      dirty := d.dirty, meta := d.meta } : EditorTab)])
          | _, _ => none) = _
        rw [hty, hmeta]
        show List.find? (dedupMatches (dedupKeyOf m))
            (l.tabs ++
              [({ id := "tab-" ++ u1, title := d.title,
                  type := EditorTabType.databaseView, dirty := d.dirty,
                  meta := some m } : EditorTab)]) = _
        rw [find?_append_right hmiss]
        simp [List.find?, dedupMatches]
      rw [openTab_dedup hres1 hscan1]
      show findLeafById
          (updateLeaf (openTab u1 d (some l.id) t) l.id
            (fun leaf => { leaf with activeTabId := some ("tab-" ++ u1) })) l.id
        = _
      rw [findLeafById_updateLeaf (t := openTab u1 d (some l.id) t) (i := l.id)
          (f := fun leaf => { leaf with activeTabId := some ("tab-" ++ u1) })
          (fun l2 => rfl), h1]
      rfl

/-- C4, witness: opening the same `database-view` identity twice on the root
leaf yields one tab with `activeTabId` on it, and a third call on the
resulting state creates no tab anywhere. -/
theorem C4_witness :
    findLeafById
        (openTab "u2"
          { title := "db d", type := EditorTabType.databaseView, dirty := none,
            meta := some [("profileId", "p"), ("database", "d")] }
          (some "root-editor")
          (openTab "u1"
            { title := "db d", type := EditorTabType.databaseView, dirty := none,
              meta := some [("profileId", "p"), ("database", "d")] }
            (some "root-editor") initialEditorTree)) "root-editor"
      = some { id := "root-editor",
               tabs := [{ id := "tab-u1", title := "db d",
                          type := EditorTabType.databaseView, dirty := none,
                          meta := some [("profileId", "p"), ("database", "d")] }],
               activeTabId := some "tab-u1" }
    ∧ allTabs
        (openTab "u3"
          { title := "db d", type := EditorTabType.databaseView, dirty := none,
            meta := some [("profileId", "p"), ("database", "d")] }
          (some "root-editor")
          (openTab "u1"
            { title := "db d", type := EditorTabType.databaseView, dirty := none,
              meta := some [("profileId", "p"), ("database", "d")] }
            (some "root-editor") initialEditorTree))
      = allTabs
          (openTab "u1"
            { title := "db d", type := EditorTabType.databaseView, dirty := none,
              meta := some [("profileId", "p"), ("database", "d")] }
            (some "root-editor") initialEditorTree) := by
  constructor
  · have h := (C4_openTab_database_view_dedup initialEditorTree "root-editor"
        { id := "root-editor", tabs := [], activeTabId := none }
        { title := "db d", type := EditorTabType.databaseView, dirty := none,
          meta := some [("profileId", "p"), ("database", "d")] }
        [("profileId", "p"), ("database", "d")]
        (by decide) (by decide) rfl rfl).2 "u1" "u2" rfl
    exact h.2.2
  · have h := (C4_openTab_database_view_dedup
        (openTab "u1"
          { title := "db d", type := EditorTabType.databaseView, dirty := none,
            meta := some [("profileId", "p"), ("database", "d")] }
          (some "root-editor") initialEditorTree) "root-editor"
        { id := "root-editor",
          tabs := [{ id := "tab-u1", title := "db d",
                     type := EditorTabType.databaseView, dirty := none,
                     meta := some [("profileId", "p"), ("database", "d")] }],
          activeTabId := some "tab-u1" }
        { title := "db d", type := EditorTabType.databaseView, dirty := none,
          meta := some [("profileId", "p"), ("database", "d")] }
        [("profileId", "p"), ("database", "d")]
        (by decide) (by decide) rfl rfl).1 "u3"
        { id := "tab-u1", title := "db d", type := EditorTabType.databaseView,
          dirty := none, meta := some [("profileId", "p"), ("database", "d")] }
        (by decide)
    exact h.1

/-- C5. `closeTab(tabId, leafId)` on a leaf whose tabs are
`pre ++ [tb] ++ post`, with `tb` the unique tab carrying `tabId`, removes
exactly `tb` and keeps `pre ++ post` in their original order; if `tb` was the
active tab the new `activeTabId` is the id of the last remaining tab in list
order (none when no tab remains), and if `tb` was not active `activeTabId`
is unchanged. -/
theorem C5_closeTab_spec (t : SplitTree) (tabId leafId : String) (l : SplitLeaf)
    (pre post : List EditorTab) (tb : EditorTab)
    (hfind : findLeafById t leafId = some l)
    (htabs : l.tabs = pre ++ tb :: post)
    (htb : tb.id = tabId)
    (hunique : ∀ x ∈ pre ++ post, x.id ≠ tabId) :
    findLeafById (closeTab tabId leafId t) leafId
      = some { id := l.id, tabs := pre ++ post,
               activeTabId :=
                 if l.activeTabId = some tabId then
                   ((pre ++ post).getLast?).map (fun last => last.id)
                 else l.activeTabId } := by
  have hid : l.id = leafId := findLeafById_id hfind
  subst hid
  rw [closeTab]
  rw [findLeafById_updateLeaf (t := t) (i := l.id)
      (f := fun leaf =>
        let newTabs := leaf.tabs.filter (fun tb => tb.id ≠ tabId)
        let newActiveId : Option String :=
          if leaf.activeTabId = some tabId then
            match newTabs.getLast? with
            | some last => some last.id
            | none => none
          else leaf.activeTabId
        { id := leaf.id, tabs := newTabs, activeTabId := newActiveId })
      (fun l2 => rfl), hfind]
  have hfil : l.tabs.filter (fun x => x.id ≠ tabId) = pre ++ post := by
    rw [htabs]
    exact filter_remove_unique htb hunique
  show some
      ({ id := l.id
         tabs := l.tabs.filter (fun x => x.id ≠ tabId)
         activeTabId :=
           if l.activeTabId = some tabId then
             match (l.tabs.filter (fun x => x.id ≠ tabId)).getLast? with
             | some last => some last.id
             | none => none
           else l.activeTabId } : SplitLeaf) = _
  rw [hfil]
  refine congrArg some ?_
  by_cases hact : l.activeTabId = some tabId
  · rw [if_pos hact, if_pos hact]
    cases (pre ++ post).getLast? <;> rfl
  · rw [if_neg hact, if_neg hact]

/-- C5, witness: closing the active middle tab of a three-tab leaf keeps the
other two in order and activates the last of them. -/
theorem C5_witness :
    findLeafById
        (closeTab "t2" "L"
          (.leaf { id := "L",
                   tabs := [{ id := "t1", title := "A", type := EditorTabType.sql,
                              dirty := none, meta := none },
                            { id := "t2", title := "B", type := EditorTabType.sql,
                              dirty := none, meta := none },
                            { id := "t3", title := "C", type := EditorTabType.sql,
                              dirty := none, meta := none }],
                   activeTabId := some "t2" })) "L"
      = some { id := "L",
               tabs := [{ id := "t1", title := "A", type := EditorTabType.sql,
                          dirty := none, meta := none },
                        { id := "t3", title := "C", type := EditorTabType.sql,
                          dirty := none, meta := none }],
               activeTabId := some "t3" } := by
  have h := C5_closeTab_spec
      (.leaf { id := "L",
               tabs := [{ id := "t1", title := "A", type := EditorTabType.sql,
                          dirty := none, meta := none },
                        { id := "t2", title := "B", type := EditorTabType.sql,
                          dirty := none, meta := none },
                        { id := "t3", title := "C", type := EditorTabType.sql,
                          dirty := none, meta := none }],
               activeTabId := some "t2" })
      "t2" "L"
      { id := "L",
        tabs := [{ id := "t1", title := "A", type := EditorTabType.sql,
                   dirty := none, meta := none },
                 { id := "t2", title := "B", type := EditorTabType.sql,
                   dirty := none, meta := none },
                 { id := "t3", title := "C", type := EditorTabType.sql,
                   dirty := none, meta := none }],
        activeTabId := some "t2" }
      [{ id := "t1", title := "A", type := EditorTabType.sql,
         dirty := none, meta := none }]
      [{ id := "t3", title := "C", type := EditorTabType.sql,
         dirty := none, meta := none }]
      { id := "t2", title := "B", type := EditorTabType.sql,
        dirty := none, meta := none }
      (by decide) (by decide) (by decide) (by decide)
  simpa using h

/-- C6, counterexample. The claim says that when `tabId` is the last tab,
`closeTabsToRight` preserves `activeTabId` including when it was none. On a
one-tab leaf with no active tab, `closeTabsToRight` on that last tab leaves
`tabs` unchanged but sets `activeTabId` to the last tab's id instead of
keeping none. -/
theorem C6_counterexample :
    closeTabsToRight "t1" "L"
        (.leaf { id := "L",
                 tabs := [{ id := "t1", title := "Q", type := EditorTabType.sql,
                            dirty := none, meta := none }],
                 activeTabId := none })
      = .leaf { id := "L",
                tabs := [{ id := "t1", title := "Q", type := EditorTabType.sql,
                           dirty := none, meta := none }],
                activeTabId := some "t1" } := by
  decide

/-- C6, amended. `closeTabsToRight(tabId, leafId)`, when `tabId` occurs in
the leaf's tabs (first occurrence `tb` after prefix `pre`), truncates `tabs`
to `pre ++ [tb]`; `activeTabId` is unchanged when it refers to a tab that
survived the truncation, and otherwise — including when it was none, or
dangling — it becomes the id of the new last tab `tb`. In particular, when
`tabId` is the last tab, `tabs` is unchanged, but an absent `activeTabId` is
replaced by that last tab's id rather than preserved. -/
theorem C6_closeTabsToRight_spec (t : SplitTree) (tabId leafId : String) (l : SplitLeaf)
    (pre post : List EditorTab) (tb : EditorTab)
    (hfind : findLeafById t leafId = some l)
    (htabs : l.tabs = pre ++ tb :: post)
    (htb : tb.id = tabId)
    (hfirst : ∀ x ∈ pre, x.id ≠ tabId) :
    findLeafById (closeTabsToRight tabId leafId t) leafId
      = some { id := l.id, tabs := pre ++ [tb],
               activeTabId :=
                 if (pre ++ [tb]).any (fun x => some x.id = l.activeTabId) then
                   l.activeTabId
                 else some tb.id } := by
  have hid : l.id = leafId := findLeafById_id hfind
  subst hid
  rw [closeTabsToRight]
  rw [findLeafById_updateLeaf (t := t) (i := l.id)
      (f := fun leaf =>
        match List.findIdx? (fun tb => tb.id == tabId) leaf.tabs with
        | none => leaf
        | some tabIndex =>
            let newTabs := leaf.tabs.take (tabIndex + 1)
            let newActiveId : Option String :=
              if newTabs.any (fun tb => some tb.id = leaf.activeTabId) then
                leaf.activeTabId
              else
                match newTabs.getLast? with
                | some last => some last.id
                | none => none
            { leaf with tabs := newTabs, activeTabId := newActiveId })
      (fun l2 => by cases hidx : List.findIdx? (fun tb => tb.id == tabId) l2.tabs <;>
        simp [hidx]), hfind]
  have hidx : List.findIdx? (fun x => x.id == tabId) l.tabs = some pre.length := by
    rw [htabs]
    exact findIdx?_first_hit htb hfirst
  have htake : l.tabs.take (pre.length + 1) = pre ++ [tb] := by
    rw [htabs]
    exact take_succ_len pre post tb
  simp only [Option.map_some', hidx, htake, List.getLast?_concat]

/-- C6, witness: truncating to the right of the first tab of a two-tab leaf
whose second tab was active keeps only the first tab and activates it. -/
theorem C6_witness :
    findLeafById
        (closeTabsToRight "t1" "L"
          (.leaf { id := "L",
                   tabs := [{ id := "t1", title := "A", type := EditorTabType.sql,
                              dirty := none, meta := none },
                            { id := "t2", title := "B", type := EditorTabType.sql,
                              dirty := none, meta := none }],
                   activeTabId := some "t2" })) "L"
      = some { id := "L",
               tabs := [{ id := "t1", title := "A", type := EditorTabType.sql,
                          dirty := none, meta := none }],
               activeTabId := some "t1" } := by
  have h := C6_closeTabsToRight_spec
      (.leaf { id := "L",
               tabs := [{ id := "t1", title := "A", type := EditorTabType.sql,
                          dirty := none, meta := none },
                        { id := "t2", title := "B", type := EditorTabType.sql,
                          dirty := none, meta := none }],
               activeTabId := some "t2" })
      "t1" "L"
      { id := "L",
        tabs := [{ id := "t1", title := "A", type := EditorTabType.sql,
                   dirty := none, meta := none },
                 { id := "t2", title := "B", type := EditorTabType.sql,
                   dirty := none, meta := none }],
        activeTabId := some "t2" }
      []
      [{ id := "t2", title := "B", type := EditorTabType.sql,
         dirty := none, meta := none }]
      { id := "t1", title := "A", type := EditorTabType.sql,
        dirty := none, meta := none }
      (by decide) (by decide) (by decide) (by decide)
  simpa using h

/-! ## Path-wise view of the tree, for the split specification -/

/-- Subtree lookup along a path of child selectors: `false` descends into
child `a`, `true` into child `b`. -/
def subtreeAt : SplitTree → List Bool → Option SplitTree
  | t, [] => some t
  | .leaf _, _ :: _ => none
  | .node _ _ _ a b, c :: p => subtreeAt (if c then b else a) p

theorem subtreeAt_splitLeaf_of_leaf {t : SplitTree} {nu lu i : String}
    {dir : SplitDirection} {p : List Bool} {l : SplitLeaf}
    (h : subtreeAt t p = some (.leaf l)) :
    subtreeAt (splitLeaf nu lu i dir t) p =
      some (if l.id = i then
          SplitTree.node ("node-" ++ nu) dir 0.5 (.leaf l)
            (.leaf { id := "leaf-" ++ lu, tabs := [], activeTabId := none })
        else .leaf l) := by
  induction t generalizing p with
  | leaf l2 =>
      cases p with
      | nil =>
          have hl2 : l2 = l := by simpa [subtreeAt] using h
          subst hl2
          by_cases hl : l2.id = i
          · rw [splitLeaf_leaf, if_pos hl]
            rfl
          · rw [splitLeaf_leaf, if_neg hl]
            rfl
      | cons c p2 => simp [subtreeAt] at h
  | node j d r a b iha ihb =>
      cases p with
      | nil => simp [subtreeAt] at h
      | cons c p2 =>
          rw [splitLeaf_node]
          simp only [subtreeAt] at h ⊢
          cases c
          · simpa using iha (by simpa using h)
          · simpa using ihb (by simpa using h)

theorem subtreeAt_splitLeaf_of_node {t : SplitTree} {nu lu i : String}
    {dir : SplitDirection} {p : List Bool} {j : String} {d : SplitDirection}
    {r : ℚ} {a b : SplitTree}
    (h : subtreeAt t p = some (.node j d r a b)) :
    ∃ a2 b2, subtreeAt (splitLeaf nu lu i dir t) p = some (.node j d r a2 b2) := by
  induction t generalizing p with
  | leaf l =>
      cases p with
      | nil => simp [subtreeAt] at h
      | cons c p2 => simp [subtreeAt] at h
  | node j2 d2 r2 a2 b2 iha ihb =>
      cases p with
      | nil =>
          simp only [subtreeAt, Option.some.injEq, SplitTree.node.injEq] at h
          obtain ⟨h1, h2, h3, h4, h5⟩ := h
          subst h1
          subst h2
          subst h3
          rw [splitLeaf_node]
          exact ⟨_, _, rfl⟩
      | cons c p2 =>
          rw [splitLeaf_node]
          simp only [subtreeAt] at h ⊢
          cases c
          · simpa using iha (by simpa using h)
          · simpa using ihb (by simpa using h)

/-- C9. `splitLeaf(leafId, direction)` rewrites the tree pointwise: wherever
the original tree had the leaf with id `leafId`, the new tree has a node
carrying the freshly generated id, the given direction and ratio exactly
`0.5`, whose `a` child is that original leaf unchanged (same id, tabs and
active tab) and whose `b` child is a brand-new empty leaf with a fresh id and
no active tab; every other leaf is unchanged, and every node keeps its id,
direction and ratio (with its children rewritten by the same rule), so no
other part of the tree changes. -/
theorem C9_splitLeaf_spec (t : SplitTree) (nu lu leafId : String)
    (dir : SplitDirection) (p : List Bool) :
    (∀ l : SplitLeaf, subtreeAt t p = some (.leaf l) →
       subtreeAt (splitLeaf nu lu leafId dir t) p
         = some (if l.id = leafId then
               SplitTree.node ("node-" ++ nu) dir 0.5 (.leaf l)
                 (.leaf { id := "leaf-" ++ lu, tabs := [], activeTabId := none })
             else .leaf l))
    ∧ (∀ (j : String) (d : SplitDirection) (r : ℚ) (a b : SplitTree),
        subtreeAt t p = some (.node j d r a b) →
        ∃ a2 b2, subtreeAt (splitLeaf nu lu leafId dir t) p
          = some (.node j d r a2 b2)) :=
  ⟨fun _ h => subtreeAt_splitLeaf_of_leaf h,
   fun _ _ _ _ _ h => subtreeAt_splitLeaf_of_node h⟩

/-- C9, witness: splitting the initial root leaf yields, at the root path,
a `0.5`-ratio node over the untouched root leaf and a fresh empty leaf. -/
theorem C9_witness :
    subtreeAt (splitLeaf "n" "l" "root-editor" SplitDirection.vertical
        initialEditorTree) []
      = some (SplitTree.node "node-n" SplitDirection.vertical 0.5
          (.leaf { id := "root-editor", tabs := [], activeTabId := none })
          (.leaf { id := "leaf-l", tabs := [], activeTabId := none })) := by
  have h := (C9_splitLeaf_spec initialEditorTree "n" "l" "root-editor"
      SplitDirection.vertical []).1
      { id := "root-editor", tabs := [], activeTabId := none } rfl
  rw [if_pos rfl] at h
  exact h

end WorkgridStudio
